import Mathlib

/-!
Shallow embedding of the DTC (diagnostic trouble code) resolution engine of
the `dtc-database` repository, together with proofs of the specification
claims about it.

The embedded code lives in `python/dtc_perfect.py` (class `PerfectDTCDatabase`)
and `python/dtc_database.py` (class `DTCDatabase`).  The SQLite table
`dtc_definitions` is modelled as a list of rows in insertion order; a SQL
`SELECT ... WHERE p` with `fetchone()` and no `ORDER BY` returns the first row
of the list satisfying `p`, `ORDER BY` is modelled by a stable merge sort, and
SQLite's text comparison is byte-wise lexicographic order on the characters.
Python `str.upper` is modelled character-wise (`Char.toUpper` handles exactly
the ASCII range, which matches the data's alphabet).
-/

/-- Python `str.upper()`, applied character by character. -/
def upper (s : String) : String := ⟨s.data.map Char.toUpper⟩

/-- Lexicographic strict-or-equal comparison of character lists
(SQLite's ordering on `TEXT` values). -/
def lexLE : List Char → List Char → Bool
  | [], _ => true
  | _ :: _, [] => false
  | a :: as, b :: bs => if a = b then lexLE as bs else decide (a < b)

/-- SQLite `ORDER BY` comparison for text columns. -/
def strLE (a b : String) : Bool := lexLE a.data b.data

/-- Row of the `dtc_definitions` table of `dtc_perfect.db`
(= dataclass `ManufacturerDTC` of `dtc_perfect.py`). -/
structure ManufacturerDTC where
  code : String
  manufacturer : String
  description : String
  is_generic : Bool
deriving DecidableEq, Repr

/-- `SELECT description FROM dtc_definitions WHERE code = ? AND manufacturer = ?`
with `fetchone()`. -/
def queryDesc (store : List ManufacturerDTC) (c m : String) : Option String :=
  (store.find? (fun r => r.code == c && r.manufacturer == m)).map (fun r => r.description)

/-- `SELECT description FROM dtc_definitions WHERE code = ? AND is_generic = 1`
with `fetchone()`. -/
def queryGeneric (store : List ManufacturerDTC) (c : String) : Option String :=
  (store.find? (fun r => r.code == c && r.is_generic)).map (fun r => r.description)

/-- The hardcoded GM brand family of `PerfectDTCDatabase.get_for_manufacturer`. -/
def gmBrands : List String :=
  ["CHEVY", "BUICK", "CADILLAC", "GMC", "PONTIAC", "OLDSMOBILE", "SATURN", "GEO"]

/-- `PerfectDTCDatabase.get_for_manufacturer` (dtc_perfect.py lines 45-98). -/
def get_for_manufacturer (store : List ManufacturerDTC) (code manufacturer : String) :
    Option String :=
  let c := upper code
  let m := upper manufacturer
  match queryDesc store c m with
  | some d => some d
  | none =>
    -- Special case: INFINITI uses NISSAN codes
    match (if m == "NISSAN" then queryDesc store c "INFINITI" else none) with
    | some d => some d
    | none =>
      -- Special case: GM brands can use generic GM codes
      match (if gmBrands.contains m then queryDesc store c "GM" else none) with
      | some d => some d
      | none =>
        -- Fallback to generic if available
        queryGeneric store c

/-- The lookup chain exactly as the specification words it: exact
`(code, manufacturer)` row, else the `INFINITI` row for `NISSAN`, else the
`GM` row for the GM brand family, else a row flagged `is_generic`, else
absent. -/
def resolveDescriptionSpec (store : List ManufacturerDTC) (code manufacturer : String) :
    Option String :=
  (queryDesc store (upper code) (upper manufacturer)) <|>
  (if upper manufacturer = "NISSAN" then queryDesc store (upper code) "INFINITI" else none) <|>
  (if upper manufacturer ∈ gmBrands then queryDesc store (upper code) "GM" else none) <|>
  queryGeneric store (upper code)

/-- **C1.** For every store, code and manufacturer, `get_for_manufacturer`
returns the first hit of the chain: exact `(code, manufacturer)` row's
description; else, for `NISSAN`, the `(code, INFINITI)` row; else, for a GM
family brand, the `(code, GM)` row; else the description of a row flagged
`is_generic`; else absent.  In particular a code of another brand with no
generic row yields absent. -/
theorem c1_get_for_manufacturer_chain (store : List ManufacturerDTC)
    (code manufacturer : String) :
    get_for_manufacturer store code manufacturer =
      resolveDescriptionSpec store code manufacturer := by
  unfold get_for_manufacturer resolveDescriptionSpec
  have hmem : gmBrands.contains (upper manufacturer) =
      decide (upper manufacturer ∈ gmBrands) := by
    by_cases h : upper manufacturer ∈ gmBrands <;>
      simp [h, List.contains_iff_exists_mem_beq]
  have hnis : ("NISSAN" : String) ∉ gmBrands := by decide
  cases h1 : queryDesc store (upper code) (upper manufacturer) <;>
  cases h2 : queryDesc store (upper code) "INFINITI" <;>
  cases h3 : queryDesc store (upper code) "GM" <;>
  by_cases h5 : upper manufacturer = "NISSAN" <;>
  by_cases h6 : upper manufacturer ∈ gmBrands <;>
    simp_all [Option.orElse]

/-- Python `vin[:n].upper()`. -/
def takeUpper (s : String) (n : Nat) : String := ⟨(s.data.take n).map Char.toUpper⟩

/-- The `wmi_map` dictionary of `PerfectDTCDatabase.get_manufacturer_from_vin`
(dtc_perfect.py lines 216-333), reproduced verbatim. -/
def wmi_map : List (String × String) := [
  ("1FA", "FORD"), ("1FB", "FORD"), ("1FC", "FORD"), ("1FD", "FORD"),
  ("1FM", "FORD"), ("1FT", "FORD"), ("1FU", "FORD"), ("1FV", "FORD"),
  ("1G1", "CHEVY"), ("1G2", "PONTIAC"), ("1G3", "OLDSMOBILE"),
  ("1G4", "BUICK"), ("1G6", "CADILLAC"), ("1G8", "SATURN"),
  ("1GC", "CHEVY"), ("1GM", "PONTIAC"), ("1GT", "GMC"),
  ("1GE", "CADILLAC"), ("1GY", "CADILLAC"), ("1G9", "GEO"),
  ("1C3", "CHRYSLER"), ("1C4", "CHRYSLER"), ("1C6", "CHRYSLER"),
  ("1D3", "DODGE"), ("1D4", "DODGE"), ("1D7", "DODGE"), ("1D8", "DODGE"),
  ("1J4", "JEEP"), ("1J8", "JEEP"),
  ("1P3", "PLYMOUTH"), ("1P4", "PLYMOUTH"), ("1P7", "PLYMOUTH"),
  ("1HG", "HONDA"), ("1LN", "LINCOLN"), ("1ME", "MERCURY"),
  ("1N4", "NISSAN"), ("1N6", "NISSAN"), ("1VW", "VOLKSWAGEN"),
  ("1YV", "MAZDA"), ("1ZV", "FORD"),
  ("2FA", "FORD"), ("2FB", "FORD"), ("2FC", "FORD"), ("2FM", "FORD"),
  ("2FT", "FORD"), ("2FU", "FORD"), ("2FV", "FORD"), ("2FZ", "FORD"),
  ("2G1", "CHEVY"), ("2G2", "PONTIAC"), ("2G3", "OLDSMOBILE"),
  ("2G4", "BUICK"), ("2G5", "GMC"), ("2G6", "CADILLAC"), ("2G9", "GEO"),
  ("2HG", "HONDA"), ("2HK", "HONDA"), ("2HM", "HONDA"),
  ("2LM", "LINCOLN"), ("2ME", "MERCURY"),
  ("2C3", "CHRYSLER"), ("2C4", "CHRYSLER"), ("2D3", "DODGE"),
  ("2P3", "PLYMOUTH"), ("2P4", "PLYMOUTH"),
  ("3FA", "FORD"), ("3FE", "FORD"), ("3G1", "CHEVY"),
  ("3G2", "PONTIAC"), ("3G4", "BUICK"), ("3G5", "BUICK"),
  ("3G6", "CADILLAC"), ("3G7", "GMC"), ("3GC", "CHEVY"),
  ("3VW", "VOLKSWAGEN"), ("3C4", "CHRYSLER"), ("3D3", "DODGE"),
  ("3D4", "DODGE"), ("3P3", "PLYMOUTH"),
  ("4F2", "MAZDA"), ("4F3", "MAZDA"), ("4F4", "MAZDA"),
  ("4J8", "JEEP"), ("4JG", "MERCEDES"), ("4US", "BMW"),
  ("4T1", "TOYOTA"), ("4T3", "TOYOTA"),
  ("5FN", "HONDA"), ("5J6", "HONDA"), ("5J8", "ACURA"),
  ("5NP", "KIA"), ("5TB", "TOYOTA"), ("5TD", "TOYOTA"),
  ("5TE", "TOYOTA"), ("5TF", "TOYOTA"), ("5YJ", "TESLA"),
  ("4A3", "MITSUBISHI"), ("4A4", "MITSUBISHI"), ("4A5", "MITSUBISHI"),
  ("4B3", "MITSUBISHI"),
  ("JA3", "MITSUBISHI"), ("JA4", "MITSUBISHI"), ("JA7", "MITSUBISHI"),
  ("JF1", "SUBARU"), ("JF2", "SUBARU"), ("JF3", "SUBARU"),
  ("JH4", "ACURA"), ("JHG", "HONDA"), ("JHL", "HONDA"), ("JHM", "HONDA"),
  ("JM1", "MAZDA"), ("JM3", "MAZDA"), ("JM7", "MAZDA"),
  ("JN1", "NISSAN"), ("JN3", "NISSAN"), ("JN6", "NISSAN"), ("JN8", "NISSAN"),
  ("JS1", "SUZUKI"), ("JS2", "SUZUKI"), ("JS3", "SUZUKI"),
  ("JT2", "TOYOTA"), ("JT3", "TOYOTA"), ("JT4", "TOYOTA"),
  ("JT5", "TOYOTA"), ("JT6", "TOYOTA"), ("JT8", "LEXUS"),
  ("JTD", "TOYOTA"), ("JTE", "TOYOTA"), ("JTH", "LEXUS"),
  ("JTJ", "LEXUS"), ("JTK", "TOYOTA"), ("JTL", "TOYOTA"),
  ("JTM", "TOYOTA"), ("JTN", "TOYOTA"),
  ("KM8", "KIA"), ("KN8", "KIA"), ("KNA", "KIA"),
  ("KND", "KIA"), ("KNH", "KIA"), ("KNJ", "KIA"),
  ("KMH", "HYUNDAI"), ("KMF", "HYUNDAI"), ("KM1", "HYUNDAI"),
  ("VF1", "RENAULT"), ("VF2", "RENAULT"), ("VF3", "PEUGEOT"),
  ("VF4", "PEUGEOT"), ("VF6", "RENAULT"), ("VF7", "CITROEN"),
  ("VF8", "MATRA"), ("VF9", "BUGATTI"),
  ("W0L", "OPEL"), ("W0V", "OPEL"),
  ("WA1", "AUDI"), ("WAU", "AUDI"), ("WUA", "AUDI"),
  ("WBA", "BMW"), ("WBM", "BMW"), ("WBS", "BMW"), ("WBX", "BMW"),
  ("WBY", "BMW"), ("WB1", "BMW"), ("WB2", "BMW"), ("WB3", "BMW"),
  ("WD0", "MERCEDES"), ("WD1", "MERCEDES"), ("WD2", "MERCEDES"),
  ("WD3", "MERCEDES"), ("WD4", "MERCEDES"), ("WD5", "MERCEDES"),
  ("WD8", "MERCEDES"), ("WDA", "MERCEDES"), ("WDB", "MERCEDES"),
  ("WDC", "MERCEDES"), ("WDD", "MERCEDES"), ("WDE", "MERCEDES"),
  ("WDF", "MERCEDES"), ("WMW", "MINI"),
  ("WP0", "PORSCHE"), ("WP1", "PORSCHE"),
  ("WVG", "VOLKSWAGEN"), ("WVW", "VOLKSWAGEN"),
  ("WV1", "VOLKSWAGEN"), ("WV2", "VOLKSWAGEN"), ("WV3", "VOLKSWAGEN"),
  ("SAJ", "JAGUAR"), ("SAD", "JAGUAR"), ("SAF", "JAGUAR"), ("SAX", "JAGUAR"),
  ("SCC", "LOTUS"), ("SCF", "ASTON_MARTIN"),
  ("SAL", "LAND_ROVER"), ("SAR", "ROVER"), ("SHH", "LAND_ROVER"),
  ("SJN", "NISSAN"),
  ("YV1", "VOLVO"), ("YV2", "VOLVO"), ("YV3", "VOLVO"),
  ("YV4", "VOLVO"), ("YV5", "VOLVO"), ("YS3", "SAAB"),
  ("ZA9", "LAMBORGHINI"), ("ZAM", "MASERATI"), ("ZAR", "ALFA_ROMEO"),
  ("ZCF", "IVECO"), ("ZFA", "FIAT"), ("ZFF", "FERRARI"),
  ("ZHW", "LAMBORGHINI"), ("ZLA", "LANCIA"),
  ("MA3", "MITSUBISHI"), ("MB3", "MITSUBISHI"), ("ML3", "MITSUBISHI"),
  ("MMB", "MITSUBISHI"), ("MMC", "MITSUBISHI"), ("MMD", "MITSUBISHI"),
  ("MMT", "MITSUBISHI"), ("MZ2", "MITSUBISHI"), ("MZ3", "MITSUBISHI"),
  ("LVS", "FORD"), ("LVY", "VOLVO"), ("LVG", "TOYOTA"),
  ("L56", "HYUNDAI"), ("L5Y", "MAZDA"),
  ("9BW", "VOLKSWAGEN"), ("9BF", "FORD"), ("9BG", "CHEVY"),
  ("9BD", "FIAT"), ("9BM", "MERCEDES"), ("9BN", "JAGUAR"),
  ("93H", "HONDA"), ("93W", "PEUGEOT"), ("93X", "CITROEN"),
  ("93Y", "RENAULT"), ("94D", "NISSAN"), ("9FB", "RENAULT")]

/-- `PerfectDTCDatabase.get_manufacturer_from_vin` (dtc_perfect.py lines
205-394).  `if not vin or len(vin) < 3` collapses to the length test, since an
empty string also has length below 3; every region-letter branch mirrors the
source and returns absent. -/
def get_manufacturer_from_vin (vin : String) : Option String :=
  if vin.length < 3 then none
  else
    let wmi := takeUpper vin 3
    match wmi_map.lookup wmi with
    | some m => some m
    | none =>
      let wmi2 := takeUpper vin 2
      let wmi1 := takeUpper vin 1
      if wmi2 == "1C" then some "CHRYSLER"
      else if wmi2 == "1D" then some "DODGE"
      else if wmi2 == "1P" then some "PLYMOUTH"
      else if wmi2 == "2C" then some "CHRYSLER"
      else if wmi2 == "2D" then some "DODGE"
      else if wmi2 == "2P" then some "PLYMOUTH"
      else if wmi2 == "3C" then some "CHRYSLER"
      else if wmi2 == "3D" then some "DODGE"
      else if wmi2 == "3P" then some "PLYMOUTH"
      else if wmi2 == "1G" then some "GM"
      else if wmi2 == "2G" then some "GM"
      else if wmi2 == "3G" then some "GM"
      else if wmi1 == "J" then none
      else if wmi1 == "K" then none
      else if wmi1 == "S" then none
      else if wmi1 == "W" then none
      else if wmi1 == "V" then none
      else if wmi1 == "Z" then none
      else none

/-- An `if x == k then some v else ...` cascade over an association list,
ending in `tail`; definitionally equal to the nested conditionals of
`get_manufacturer_from_vin` when applied to a literal list. -/
def ifChain (l : List (String × String)) (x : String) (tail : Option String) :
    Option String :=
  match l with
  | [] => tail
  | (k, v) :: rest => if x == k then some v else ifChain rest x tail

theorem ifChain_eq_lookup (l : List (String × String)) (x : String) :
    ifChain l x none = l.lookup x := by
  induction l with
  | nil => rfl
  | cons kv rest ih =>
    obtain ⟨k, v⟩ := kv
    cases h : x == k <;> simp [ifChain, List.lookup, h, ih]

/-- The two-character fallback tier as the specification lists it. -/
def twoCharTable : List (String × String) := [
  ("1C", "CHRYSLER"), ("1D", "DODGE"), ("1P", "PLYMOUTH"),
  ("2C", "CHRYSLER"), ("2D", "DODGE"), ("2P", "PLYMOUTH"),
  ("3C", "CHRYSLER"), ("3D", "DODGE"), ("3P", "PLYMOUTH"),
  ("1G", "GM"), ("2G", "GM"), ("3G", "GM")]

/-- VIN decoding exactly as the specification words it: absent below three
characters; the uppercased three-character prefix against the WMI table; on
miss the ordered two-character fallbacks; on miss absent for every remaining
VIN (region letters included). -/
def decodeVinSpec (vin : String) : Option String :=
  if vin.length < 3 then none
  else
    match wmi_map.lookup (takeUpper vin 3) with
    | some m => some m
    | none =>
      match twoCharTable.lookup (takeUpper vin 2) with
      | some m => some m
      | none => none

/-- **C3.** The VIN decoder returns absent for VINs shorter than three
characters, otherwise checks the three-character WMI table, then the ordered
two-character fallbacks, then returns absent (region letters included); the
four concrete examples decode as the specification states. -/
theorem c3_vin_decoder (vin : String) :
    get_manufacturer_from_vin vin = decodeVinSpec vin ∧
    get_manufacturer_from_vin "4JGDA5HB7JB158144" = some "MERCEDES" ∧
    get_manufacturer_from_vin "1G1ZT53826F109149" = some "CHEVY" ∧
    get_manufacturer_from_vin "WP0AA2990YS620404" = some "PORSCHE" ∧
    get_manufacturer_from_vin "XX" = none := by
  refine ⟨?_, by decide, by decide, by decide, by decide⟩
  unfold get_manufacturer_from_vin decodeVinSpec
  by_cases h0 : vin.length < 3
  · simp [h0]
  · simp only [h0, if_false]
    cases h1 : wmi_map.lookup (takeUpper vin 3)
    · clear h1
      have hregion : (if takeUpper vin 1 == "J" then (none : Option String)
          else if takeUpper vin 1 == "K" then none
          else if takeUpper vin 1 == "S" then none
          else if takeUpper vin 1 == "W" then none
          else if takeUpper vin 1 == "V" then none
          else if takeUpper vin 1 == "Z" then none
          else none) = none := by split_ifs <;> rfl
      show ifChain twoCharTable (takeUpper vin 2)
          (if takeUpper vin 1 == "J" then (none : Option String)
          else if takeUpper vin 1 == "K" then none
          else if takeUpper vin 1 == "S" then none
          else if takeUpper vin 1 == "W" then none
          else if takeUpper vin 1 == "V" then none
          else if takeUpper vin 1 == "Z" then none
          else none) = _
      rw [hregion, ifChain_eq_lookup]
      cases twoCharTable.lookup (takeUpper vin 2) <;> rfl
    · clear h1
      rfl

theorem lexLE_trans : ∀ a b c : List Char, lexLE a b → lexLE b c → lexLE a c
  | [], _, _, _, _ => rfl
  | _ :: _, [], _, hab, _ => by simp [lexLE] at hab
  | _ :: _, _ :: _, [], _, hbc => by simp [lexLE] at hbc
  | x :: xs, y :: ys, z :: zs, hab, hbc => by
    simp only [lexLE] at hab hbc ⊢
    by_cases hxy : x = y
    · subst hxy
      by_cases hyz : x = z
      · subst hyz
        simp only [if_pos rfl] at hab hbc ⊢
        exact lexLE_trans xs ys zs hab hbc
      · simp only [if_pos rfl, if_neg hyz] at hab hbc ⊢
        exact hbc
    · by_cases hyz : y = z
      · subst hyz
        simp only [if_neg hxy] at hab ⊢
        exact hab
      · have hlt1 : x < y := by simpa [hxy] using hab
        have hlt2 : y < z := by simpa [hyz] using hbc
        have hxz : x ≠ z := ne_of_lt (lt_trans hlt1 hlt2)
        simp [hxz, lt_trans hlt1 hlt2]

theorem lexLE_total : ∀ a b : List Char, lexLE a b || lexLE b a
  | [], _ => by simp [lexLE]
  | _ :: _, [] => by simp [lexLE]
  | x :: xs, y :: ys => by
    simp only [lexLE]
    by_cases hxy : x = y
    · simpa [hxy] using lexLE_total xs ys
    · rcases lt_or_gt_of_ne hxy with h | h <;> simp [hxy, Ne.symm hxy, h, not_lt_of_gt h]

theorem strLE_trans (a b c : String) : strLE a b → strLE b c → strLE a c :=
  lexLE_trans a.data b.data c.data

theorem strLE_total (a b : String) : strLE a b || strLE b a :=
  lexLE_total a.data b.data

/-- The `ORDER BY is_generic DESC, manufacturer` comparison used by
`get_all_definitions`: rows flagged generic come first, then rows ordered by
manufacturer name ascending. -/
def defsLE (a b : ManufacturerDTC) : Bool :=
  if a.is_generic == b.is_generic then strLE a.manufacturer b.manufacturer
  else a.is_generic

theorem defsLE_trans (a b c : ManufacturerDTC) :
    defsLE a b → defsLE b c → defsLE a c := by
  unfold defsLE
  cases ha : a.is_generic <;> cases hb : b.is_generic <;> cases hc : c.is_generic <;>
    simp_all <;> exact strLE_trans _ _ _

theorem defsLE_total (a b : ManufacturerDTC) : defsLE a b || defsLE b a := by
  unfold defsLE
  cases ha : a.is_generic <;> cases hb : b.is_generic <;> simp_all <;>
    simpa using strLE_total a.manufacturer b.manufacturer

/-- `ORDER BY is_generic DESC, manufacturer` as a relation (SQLite's sort is
modelled as a stable sort under this total preorder). -/
def defsRel (a b : ManufacturerDTC) : Prop := defsLE a b = true

instance : DecidableRel defsRel := fun a b => by unfold defsRel; infer_instance

instance : IsTrans ManufacturerDTC defsRel :=
  ⟨fun a b c hab hbc => defsLE_trans a b c hab hbc⟩

instance : IsTotal ManufacturerDTC defsRel :=
  ⟨fun a b => by
    have h := defsLE_total a b
    rcases Bool.or_eq_true_iff.mp h with h1 | h1
    · exact Or.inl h1
    · exact Or.inr h1⟩

/-- `PerfectDTCDatabase.get_all_definitions` (dtc_perfect.py lines 100-129):
`SELECT ... WHERE code = ? ORDER BY is_generic DESC, manufacturer`. -/
def get_all_definitions (store : List ManufacturerDTC) (code : String) :
    List ManufacturerDTC :=
  (store.filter (fun r => r.code == upper code)).insertionSort defsRel

/-- Insertion order of the keys of a Python dict built by appending: each
description once, at its first occurrence. -/
def firstSeenDescs : List String → List String
  | [] => []
  | s :: rest => s :: (firstSeenDescs rest).filter (fun t => !(t == s))

/-- The `desc_counts` dictionary of `PerfectDTCDatabase.get_smart` (lines
187-192): keys in first-seen order, each mapped to the list of definitions
carrying that description, in fetch order. -/
def desc_counts (defs : List ManufacturerDTC) : List (String × List ManufacturerDTC) :=
  (firstSeenDescs (defs.map (fun d => d.description))).map
    (fun s => (s, defs.filter (fun d => d.description == s)))

/-- Python `max(..., key=lambda x: len(x[1]))`: the first item whose list is
longest (`max` replaces the current best only on a strictly greater key). -/
def maxByLen : List (String × List ManufacturerDTC) → Option (String × List ManufacturerDTC)
  | [] => none
  | g :: gs => some (gs.foldl (fun best y => if best.2.length < y.2.length then y else best) g)

/-- The result dictionary of `PerfectDTCDatabase.get_smart`. -/
structure SmartResult where
  code : String
  primary : Option ManufacturerDTC
  alternatives : List ManufacturerDTC
  total_definitions : Nat
  is_manufacturer_specific : Bool
deriving DecidableEq, Repr

/-- `if vin and not manufacturer: manufacturer = self.get_manufacturer_from_vin(vin)`
with Python truthiness: `None` and the empty string are falsy. -/
def resolveMfrArg (manufacturer vin : Option String) : Option String :=
  match vin, manufacturer with
  | some v, none => if v == "" then none else get_manufacturer_from_vin v
  | some v, some m => if m == "" && !(v == "") then get_manufacturer_from_vin v else some m
  | none, m => m

/-- `PerfectDTCDatabase.get_smart` (dtc_perfect.py lines 131-203).
`code.startswith('P')` with a one-character argument is a test on the first
character; `second_char in '13'` is a test on the character at index 1. -/
def get_smart (store : List ManufacturerDTC) (code : String)
    (manufacturer vin : Option String) : SmartResult :=
  let c := upper code
  -- Determine if manufacturer-specific (P1xxx, P3xxx, etc.)
  let isMS : Bool :=
    if c.data.head? == some 'P' && c.length == 5 then
      (c.data.get? 1).any (fun ch => ch == '1' || ch == '3')
    else false
  -- Extract manufacturer from VIN if provided
  let mfr := resolveMfrArg manufacturer vin
  -- Get all definitions
  let all_defs := get_all_definitions store c
  if all_defs.isEmpty then
    { code := c, primary := none, alternatives := [],
      total_definitions := all_defs.length, is_manufacturer_specific := isMS }
  else
    -- Look for manufacturer-specific first
    let m1 : Option ManufacturerDTC :=
      match mfr with
      | some m => if m == "" then none
          else all_defs.find? (fun d => upper d.manufacturer == upper m)
      | none => none
    -- If no manufacturer match, use generic if available
    let m2 := match m1 with
      | some d => some d
      | none => all_defs.find? (fun d => d.is_generic)
    -- If still no primary, use most common definition
    let primary := match m2 with
      | some d => some d
      | none => (maxByLen (desc_counts all_defs)).bind (fun g => g.2.head?)
    -- Add alternatives (exclude primary)
    let alternatives := match primary with
      | some p => all_defs.filter (fun d => !(d == p))
      | none => all_defs
    { code := c, primary := primary, alternatives := alternatives,
      total_definitions := all_defs.length, is_manufacturer_specific := isMS }

theorem find_congr {α : Type} {p q : α → Bool} :
    ∀ {l : List α}, (∀ x ∈ l, p x = q x) → l.find? p = l.find? q
  | [], _ => rfl
  | a :: as, h => by
    simp only [List.find?]
    rw [h a (List.mem_cons_self a as)]
    cases q a
    · exact find_congr (fun x hx => h x (List.mem_cons_of_mem a hx))
    · rfl

theorem find_filter_keep (q : String → Bool) (a : String) (hq : q a = false) :
    ∀ l : List String, (l.filter (fun t => !(t == a))).find? q = l.find? q
  | [] => rfl
  | t :: ts => by
    by_cases hta : t = a
    · subst hta
      simp [List.filter, List.find?, hq, find_filter_keep q t hq ts]
    · have : (t == a) = false := by simp [hta]
      simp only [List.filter, this, Bool.not_false]
      simp only [List.find?]
      cases hqt : q t
      · exact find_filter_keep q a hq ts
      · rfl

theorem mem_firstSeenDescs {s : String} :
    ∀ {l : List String}, s ∈ firstSeenDescs l ↔ s ∈ l
  | [] => Iff.rfl
  | t :: ts => by
    simp only [firstSeenDescs, List.mem_cons, List.mem_filter]
    constructor
    · rintro (rfl | ⟨hmem, _⟩)
      · exact Or.inl rfl
      · exact Or.inr (mem_firstSeenDescs.mp hmem)
    · rintro (rfl | hmem)
      · exact Or.inl rfl
      · by_cases hst : s = t
        · exact Or.inl hst
        · exact Or.inr ⟨mem_firstSeenDescs.mpr hmem, by simp [hst]⟩

theorem find_cons_eq {α : Type} (p : α → Bool) (a : α) (l : List α) :
    (a :: l).find? p = if p a = true then some a else l.find? p := by
  cases h : p a <;> simp [List.find?, h]

theorem foldlMax_eq_find {α : Type} (f : α → Nat) :
    ∀ (gs : List α) (b : α),
      some (gs.foldl (fun best y => if f best < f y then y else best) b) =
        (b :: gs).find? (fun g => decide (∀ g2 ∈ b :: gs, f g2 ≤ f g))
  | [], b => by simp [List.find?]
  | y :: ys, b => by
    simp only [List.foldl]
    by_cases hby : f b < f y
    · rw [if_pos hby]
      rw [foldlMax_eq_find f ys y]
      have hPb : ¬ ((decide (∀ g2 ∈ b :: y :: ys, f g2 ≤ f b)) = true) := by
        simp only [decide_eq_true_eq]
        intro hall
        exact absurd (hall y (List.mem_cons_of_mem b (List.mem_cons_self y ys))) (not_le_of_lt hby)
      conv_rhs => rw [find_cons_eq]
      rw [if_neg hPb]
      apply find_congr
      intro g hg
      apply decide_eq_decide.mpr
      constructor
      · intro hall g2 hg2
        rcases List.mem_cons.mp hg2 with rfl | hg2
        · exact le_trans (le_of_lt hby) (hall y (List.mem_cons_self y ys))
        · exact hall g2 hg2
      · intro hall g2 hg2
        exact hall g2 (List.mem_cons_of_mem b hg2)
    · rw [if_neg hby]
      have hyb : f y ≤ f b := le_of_not_lt hby
      rw [foldlMax_eq_find f ys b]
      have hPQ : ∀ g : α,
          (decide (∀ g2 ∈ b :: y :: ys, f g2 ≤ f g)) =
            (decide (∀ g2 ∈ b :: ys, f g2 ≤ f g)) := by
        intro g
        apply decide_eq_decide.mpr
        constructor
        · intro hall g2 hg2
          rcases List.mem_cons.mp hg2 with rfl | hg2
          · exact hall g2 (List.mem_cons_self g2 _)
          · exact hall g2 (List.mem_cons_of_mem b (List.mem_cons_of_mem y hg2))
        · intro hall g2 hg2
          rcases List.mem_cons.mp hg2 with rfl | hg2
          · exact hall g2 (List.mem_cons_self g2 _)
          · rcases List.mem_cons.mp hg2 with rfl | hg2
            · exact le_trans hyb (hall b (List.mem_cons_self b ys))
            · exact hall g2 (List.mem_cons_of_mem b hg2)
      rw [show (fun g => decide (∀ g2 ∈ b :: y :: ys, f g2 ≤ f g)) =
            (fun g => decide (∀ g2 ∈ b :: ys, f g2 ≤ f g)) from funext hPQ]
      by_cases hQb : (decide (∀ g2 ∈ b :: ys, f g2 ≤ f b)) = true
      · rw [find_cons_eq, if_pos hQb]
        conv_rhs => rw [find_cons_eq]
        rw [if_pos hQb]
      · have hQy : ¬ ((decide (∀ g2 ∈ b :: ys, f g2 ≤ f y)) = true) := by
          simp only [decide_eq_true_eq] at hQb ⊢
          intro hall
          exact hQb (fun g2 hg2 => le_trans (hall g2 hg2) hyb)
        rw [find_cons_eq, if_neg hQb]
        conv_rhs => rw [find_cons_eq]
        rw [if_neg hQb]
        conv_rhs => rw [find_cons_eq]
        rw [if_neg hQy]

/-- Number of fetched definitions carrying description `s`. -/
def countDesc (defs : List ManufacturerDTC) (s : String) : Nat :=
  (defs.filter (fun d => d.description == s)).length

theorem find_desc_bridge (q : String → Bool) :
    ∀ defs : List ManufacturerDTC,
      ((firstSeenDescs (defs.map (fun d => d.description))).find? q).bind
          (fun s => (defs.filter (fun d => d.description == s)).head?) =
        defs.find? (fun d => q d.description)
  | [] => rfl
  | d :: ds => by
    simp only [List.map, firstSeenDescs]
    rw [find_cons_eq]
    by_cases hq : q d.description = true
    · rw [if_pos hq]
      conv_rhs => rw [find_cons_eq]
      rw [if_pos hq]
      have hself : (d.description == d.description) = true := by simp
      simp [List.filter_cons, hself]
    · rw [if_neg hq]
      rw [find_filter_keep q d.description (Bool.not_eq_true _ ▸ hq) _]
      conv_rhs => rw [find_cons_eq]
      rw [if_neg hq]
      rw [← find_desc_bridge q ds]
      cases hf : (firstSeenDescs (ds.map (fun d => d.description))).find? q with
      | none => rfl
      | some s =>
        have hqs : q s = true := List.find?_some hf
        have hne : d.description ≠ s := by
          intro heq
          rw [heq] at hq
          exact hq hqs
        simp [List.filter_cons, hne]

theorem mostCommon_eq_find (d0 : ManufacturerDTC) (ds : List ManufacturerDTC) :
    (maxByLen (desc_counts (d0 :: ds))).bind (fun g => g.2.head?) =
      (d0 :: ds).find? (fun d =>
        decide (∀ e ∈ d0 :: ds,
          countDesc (d0 :: ds) e.description ≤ countDesc (d0 :: ds) d.description)) := by
  have hfs : firstSeenDescs ((d0 :: ds).map (fun d => d.description)) =
      d0.description :: (firstSeenDescs (ds.map (fun d => d.description))).filter
        (fun t => !(t == d0.description)) := rfl
  set T := (firstSeenDescs (ds.map (fun d => d.description))).filter
    (fun t => !(t == d0.description)) with hT
  set F := fun s => (s, (d0 :: ds).filter (fun d => d.description == s)) with hF
  have h1 : desc_counts (d0 :: ds) = (d0.description :: T).map F := by
    simp only [desc_counts, hfs, hT, hF]
  have h2 : maxByLen ((d0.description :: T).map F) =
      ((d0.description :: T).map F).find?
        (fun g => decide (∀ g2 ∈ (d0.description :: T).map F,
          g2.2.length ≤ g.2.length)) := by
    simp only [List.map_cons, maxByLen]
    exact foldlMax_eq_find (fun g => g.2.length) (T.map F) (F d0.description)
  rw [h1, h2, List.find?_map]
  have h3 : (d0.description :: T).find?
        ((fun g => decide (∀ g2 ∈ (d0.description :: T).map F,
          g2.2.length ≤ g.2.length)) ∘ F) =
      (d0.description :: T).find? (fun s =>
        decide (∀ e ∈ d0 :: ds,
          countDesc (d0 :: ds) e.description ≤ countDesc (d0 :: ds) s)) := by
    apply find_congr
    intro s hs
    simp only [Function.comp]
    apply decide_eq_decide.mpr
    constructor
    · intro hall e he
      have hmeme : e.description ∈ d0.description :: T := by
        rw [← hfs]
        exact mem_firstSeenDescs.mpr (List.mem_map_of_mem _ he)
      have := hall (F e.description) (List.mem_map_of_mem F hmeme)
      simpa [hF, countDesc] using this
    · intro hall g2 hg2
      obtain ⟨s2, hs2, rfl⟩ := List.mem_map.mp hg2
      have hs2m : s2 ∈ (d0 :: ds).map (fun d => d.description) :=
        mem_firstSeenDescs.mp (by rw [hfs]; exact hs2)
      obtain ⟨e, he, hse⟩ := List.mem_map.mp hs2m
      have := hall e he
      rw [hse] at this
      simpa [hF, countDesc] using this
  rw [h3]
  rw [← find_desc_bridge (fun s =>
    decide (∀ e ∈ d0 :: ds,
      countDesc (d0 :: ds) e.description ≤ countDesc (d0 :: ds) s)) (d0 :: ds)]
  rw [hfs]
  cases hfind : (d0.description :: T).find? (fun s =>
      decide (∀ e ∈ d0 :: ds,
        countDesc (d0 :: ds) e.description ≤ countDesc (d0 :: ds) s)) with
  | none => rfl
  | some s => rfl

/-- Primary selection exactly as the specification words it: a definition
whose manufacturer case-insensitively equals the resolved manufacturer; else
the first generic-flagged definition; else the earliest definition whose
description occurs most frequently among all fetched definitions. -/
def selectPrimarySpec (defs : List ManufacturerDTC) (m : Option String) :
    Option ManufacturerDTC :=
  (match m with
   | some mm => defs.find? (fun d => upper d.manufacturer == upper mm)
   | none => none) <|>
  defs.find? (fun d => d.is_generic) <|>
  defs.find? (fun d =>
    decide (∀ e ∈ defs, countDesc defs e.description ≤ countDesc defs d.description))

/-- The manufacturer context `get_smart` resolves before primary selection:
the argument, possibly replaced via VIN decoding, with a falsy (absent or
empty) result normalised to absent. -/
def resolvedManufacturer (manufacturer vin : Option String) : Option String :=
  match resolveMfrArg manufacturer vin with
  | some m => if m == "" then none else some m
  | none => none

theorem get_smart_primary_eq (store : List ManufacturerDTC) (code : String)
    (manufacturer vin : Option String)
    (h : get_all_definitions store (upper code) ≠ []) :
    (get_smart store code manufacturer vin).primary =
      selectPrimarySpec (get_all_definitions store (upper code))
        (resolvedManufacturer manufacturer vin) := by
  have hE : ¬ ((get_all_definitions store (upper code)).isEmpty = true) := by
    simpa [List.isEmpty_iff] using h
  unfold get_smart selectPrimarySpec resolvedManufacturer
  dsimp only
  rw [if_neg hE]
  dsimp only
  cases hm : resolveMfrArg manufacturer vin with
  | none =>
    dsimp only [Option.none_orElse]
    cases hg : (get_all_definitions store (upper code)).find? (fun d => d.is_generic) with
    | some dg => simp
    | none =>
      simp only [Option.none_orElse]
      obtain ⟨d0, ds, hd⟩ := List.exists_cons_of_ne_nil h
      rw [hd]
      exact mostCommon_eq_find d0 ds
  | some m =>
    dsimp only
    by_cases hm0 : (m == "") = true
    · rw [if_pos hm0, if_pos hm0]
      dsimp only [Option.none_orElse]
      cases hg : (get_all_definitions store (upper code)).find? (fun d => d.is_generic) with
      | some dg => simp
      | none =>
        simp only [Option.none_orElse]
        obtain ⟨d0, ds, hd⟩ := List.exists_cons_of_ne_nil h
        rw [hd]
        exact mostCommon_eq_find d0 ds
    · rw [if_neg hm0, if_neg hm0]
      cases hf : (get_all_definitions store (upper code)).find?
          (fun d => upper d.manufacturer == upper m) with
      | some dm => simp [hf]
      | none =>
        simp only [hf, Option.none_orElse]
        cases hg : (get_all_definitions store (upper code)).find? (fun d => d.is_generic) with
        | some dg => simp [hg]
        | none =>
          simp only [hg, Option.none_orElse]
          obtain ⟨d0, ds, hd⟩ := List.exists_cons_of_ne_nil h
          rw [hd]
          exact mostCommon_eq_find d0 ds

/-- **C2.** For every code whose fetched definition list is non-empty,
`get_smart` selects the primary by the first applicable rule: a definition
whose manufacturer case-insensitively equals the resolved manufacturer; else
the first generic-flagged definition in fetch order; else the earliest
definition whose description occurs most frequently among all fetched
definitions (which makes ties between equally frequent descriptions resolve
in favour of the description encountered first). -/
theorem c2_get_smart_primary_rule (store : List ManufacturerDTC) (code : String)
    (manufacturer vin : Option String)
    (h : get_all_definitions store (upper code) ≠ []) :
    (get_smart store code manufacturer vin).primary =
      selectPrimarySpec (get_all_definitions store (upper code))
        (resolvedManufacturer manufacturer vin) :=
  get_smart_primary_eq store code manufacturer vin h

/-- Witness for C2 at a concrete store: one `FORD` row for `P1690`,
manufacturer supplied directly. -/
theorem c2_get_smart_primary_rule_witness :
    get_all_definitions [⟨"P1690", "FORD", "Fuel pump relay fault", false⟩]
        (upper "P1690") ≠ [] ∧
    (get_smart [⟨"P1690", "FORD", "Fuel pump relay fault", false⟩] "P1690"
        (some "FORD") none).primary =
      selectPrimarySpec
        (get_all_definitions [⟨"P1690", "FORD", "Fuel pump relay fault", false⟩]
          (upper "P1690"))
        (resolvedManufacturer (some "FORD") none) :=
  ⟨by decide,
   c2_get_smart_primary_rule [⟨"P1690", "FORD", "Fuel pump relay fault", false⟩]
     "P1690" (some "FORD") none (by decide)⟩

/-- **C6.** For every input, `get_smart`'s `is_manufacturer_specific` flag is
true exactly when the uppercased code has five characters, starts with `P`,
and has second character `1` or `3`; for every other code the flag is false. -/
theorem c6_manufacturer_specific_flag (store : List ManufacturerDTC) (code : String)
    (manufacturer vin : Option String) :
    (get_smart store code manufacturer vin).is_manufacturer_specific = true ↔
      ((upper code).length = 5 ∧ (upper code).data.head? = some 'P' ∧
        ((upper code).data.get? 1 = some '1' ∨ (upper code).data.get? 1 = some '3')) := by
  have hproj : (get_smart store code manufacturer vin).is_manufacturer_specific =
      (if (upper code).data.head? == some 'P' && (upper code).length == 5 then
        ((upper code).data.get? 1).any (fun ch => ch == '1' || ch == '3')
      else false) := by
    unfold get_smart
    dsimp only
    split <;> rfl
  rw [hproj]
  cases hg : (upper code).data.get? 1 <;>
  by_cases h5 : (upper code).length = 5 <;>
  by_cases hP : (upper code).data.head? = some 'P' <;>
    simp [hg, h5, hP, Option.any]

theorem selectPrimarySpec_isSome (defs : List ManufacturerDTC) (m : Option String)
    (h : defs ≠ []) : (selectPrimarySpec defs m).isSome = true := by
  obtain ⟨d0, ds, rfl⟩ := List.exists_cons_of_ne_nil h
  unfold selectPrimarySpec
  have hc : (List.find? (fun d =>
      decide (∀ e ∈ d0 :: ds,
        countDesc (d0 :: ds) e.description ≤ countDesc (d0 :: ds) d.description))
        (d0 :: ds)) =
      some (ds.foldl (fun best y =>
        if countDesc (d0 :: ds) best.description < countDesc (d0 :: ds) y.description then y
        else best) d0) :=
    (foldlMax_eq_find (fun d => countDesc (d0 :: ds) d.description) ds d0).symm
  cases hm2 : (match m with
      | some mm => (d0 :: ds).find?
          (fun d : ManufacturerDTC => upper d.manufacturer == upper mm)
      | none => none) with
  | some d => simp [hm2]
  | none =>
    cases hg : (d0 :: ds).find? (fun d : ManufacturerDTC => d.is_generic) with
    | some d => simp [hm2, hg]
    | none =>
      simp only [Option.none_orElse]
      rw [hc]
      rfl

theorem selectPrimarySpec_mem (defs : List ManufacturerDTC) (m : Option String)
    (p : ManufacturerDTC) (h : selectPrimarySpec defs m = some p) : p ∈ defs := by
  unfold selectPrimarySpec at h
  cases m with
  | none =>
    dsimp only at h
    simp only [Option.none_orElse] at h
    cases hg : defs.find? (fun d => d.is_generic) with
    | some d =>
      rw [hg] at h
      simp only [Option.some_orElse, Option.some_inj] at h
      exact h ▸ List.mem_of_find?_eq_some hg
    | none =>
      rw [hg] at h
      simp only [Option.none_orElse] at h
      exact List.mem_of_find?_eq_some h
  | some mm =>
    dsimp only at h
    cases hf : defs.find? (fun d => upper d.manufacturer == upper mm) with
    | some d =>
      rw [hf] at h
      simp only [Option.some_orElse, Option.some_inj] at h
      exact h ▸ List.mem_of_find?_eq_some hf
    | none =>
      rw [hf] at h
      simp only [Option.none_orElse] at h
      cases hg : defs.find? (fun d => d.is_generic) with
      | some d =>
        rw [hg] at h
        simp only [Option.some_orElse, Option.some_inj] at h
        exact h ▸ List.mem_of_find?_eq_some hg
      | none =>
        rw [hg] at h
        simp only [Option.none_orElse] at h
        exact List.mem_of_find?_eq_some h

theorem get_smart_fields (store : List ManufacturerDTC) (code : String)
    (manufacturer vin : Option String) :
    (get_smart store code manufacturer vin).total_definitions =
        (get_all_definitions store (upper code)).length ∧
    (get_all_definitions store (upper code) = [] →
      (get_smart store code manufacturer vin).primary = none ∧
      (get_smart store code manufacturer vin).alternatives = []) ∧
    (∀ p, (get_smart store code manufacturer vin).primary = some p →
      (get_smart store code manufacturer vin).alternatives =
        (get_all_definitions store (upper code)).filter (fun d => !(d == p))) := by
  unfold get_smart
  dsimp only
  by_cases hE : (get_all_definitions store (upper code)).isEmpty = true
  · rw [if_pos hE]
    refine ⟨rfl, fun _ => ⟨rfl, rfl⟩, ?_⟩
    intro p hp
    exact Option.noConfusion hp
  · rw [if_neg hE]
    refine ⟨rfl, ?_, ?_⟩
    · intro h
      exact absurd (List.isEmpty_iff.mpr h) hE
    · intro p hp
      dsimp only at hp ⊢
      rw [hp]

/-- **C4.** The fetched definition collection is the code's rows ordered
generic-first then manufacturer ascending; `total_definitions` is its size;
an empty collection yields an absent primary and empty alternatives, not an
error; and with a selected primary and per-manufacturer-unique rows the
alternatives are exactly the fetched sequence with the primary removed, in
the same stable order. -/
theorem c4_get_smart_totals (store : List ManufacturerDTC) (code : String)
    (manufacturer vin : Option String) :
    ((get_all_definitions store code).Perm
        (store.filter (fun r => r.code == upper code)) ∧
      List.Sorted defsRel (get_all_definitions store code)) ∧
    (get_smart store code manufacturer vin).total_definitions =
      (get_all_definitions store (upper code)).length ∧
    (get_all_definitions store (upper code) = [] →
      (get_smart store code manufacturer vin).primary = none ∧
      (get_smart store code manufacturer vin).alternatives = []) ∧
    (∀ p, (get_smart store code manufacturer vin).primary = some p →
      (get_all_definitions store (upper code)).Nodup →
      (get_smart store code manufacturer vin).alternatives =
        (get_all_definitions store (upper code)).erase p) := by
  obtain ⟨ht, he, ha⟩ := get_smart_fields store code manufacturer vin
  refine ⟨⟨List.perm_insertionSort defsRel _, List.sorted_insertionSort defsRel _⟩,
    ht, he, ?_⟩
  intro p hp hnd
  rw [ha p hp]
  have hef : (get_all_definitions store (upper code)).erase p =
      (get_all_definitions store (upper code)).filter (fun d => !(d == p)) :=
    hnd.erase_eq_filter p
  rw [hef]

/-- Witness for C4: a `FORD` row and a generic row for `P0420`; the `FORD`
row is selected as primary and the alternatives are the fetched list with it
removed. -/
theorem c4_get_smart_totals_witness :
    (get_smart [⟨"P0420", "FORD", "Catalyst bank 1", false⟩,
        ⟨"P0420", "GENERIC", "Catalyst efficiency", true⟩] "P0420"
        (some "FORD") none).primary = some ⟨"P0420", "FORD", "Catalyst bank 1", false⟩ ∧
    (get_smart [⟨"P0420", "FORD", "Catalyst bank 1", false⟩,
        ⟨"P0420", "GENERIC", "Catalyst efficiency", true⟩] "P0420"
        (some "FORD") none).alternatives =
      (get_all_definitions [⟨"P0420", "FORD", "Catalyst bank 1", false⟩,
        ⟨"P0420", "GENERIC", "Catalyst efficiency", true⟩]
        (upper "P0420")).erase ⟨"P0420", "FORD", "Catalyst bank 1", false⟩ :=
  ⟨by decide,
   (c4_get_smart_totals [⟨"P0420", "FORD", "Catalyst bank 1", false⟩,
      ⟨"P0420", "GENERIC", "Catalyst efficiency", true⟩] "P0420"
      (some "FORD") none).2.2.2 ⟨"P0420", "FORD", "Catalyst bank 1", false⟩
     (by decide) (by decide)⟩

/-- **C10.** For a code with at least one definition, `get_smart` always
selects a primary, and under per-manufacturer uniqueness the alternatives
list has exactly `total_definitions - 1` entries; an empty-string
manufacturer argument behaves exactly like an absent one (so a supplied VIN
is then used to derive the manufacturer). -/
theorem c10_get_smart_nonempty (store : List ManufacturerDTC) (code : String)
    (manufacturer vin : Option String) :
    (get_all_definitions store (upper code) ≠ [] →
      (get_smart store code manufacturer vin).primary.isSome = true ∧
      (((get_all_definitions store (upper code)).map
          (fun d => d.manufacturer)).Nodup →
        (get_smart store code manufacturer vin).alternatives.length =
          (get_smart store code manufacturer vin).total_definitions - 1)) ∧
    get_smart store code (some "") vin = get_smart store code none vin := by
  constructor
  · intro h
    have hps := get_smart_primary_eq store code manufacturer vin h
    have hsome : (get_smart store code manufacturer vin).primary.isSome = true := by
      rw [hps]
      exact selectPrimarySpec_isSome _ _ h
    refine ⟨hsome, ?_⟩
    intro hnd
    have hnd2 : (get_all_definitions store (upper code)).Nodup := hnd.of_map
    obtain ⟨p, hp⟩ := Option.isSome_iff_exists.mp hsome
    have hpmem : p ∈ get_all_definitions store (upper code) :=
      selectPrimarySpec_mem _ _ p (by rw [← hps]; exact hp)
    obtain ⟨ht, he, ha⟩ := get_smart_fields store code manufacturer vin
    rw [ha p hp, ht]
    have hef : (get_all_definitions store (upper code)).filter (fun d => !(d == p)) =
        (get_all_definitions store (upper code)).erase p :=
      (hnd2.erase_eq_filter p).symm
    rw [hef]
    exact List.length_erase_of_mem hpmem
  · have hm1 : (match resolveMfrArg (some "") vin with
        | some m => if m == "" then none
            else (get_all_definitions store (upper code)).find?
              (fun d : ManufacturerDTC => upper d.manufacturer == upper m)
        | none => none) =
        (match resolveMfrArg none vin with
        | some m => if m == "" then none
            else (get_all_definitions store (upper code)).find?
              (fun d : ManufacturerDTC => upper d.manufacturer == upper m)
        | none => none) := by
      cases vin with
      | none => rfl
      | some v =>
        by_cases hv : (v == "") = true <;>
          simp [resolveMfrArg, hv]
    unfold get_smart
    dsimp only
    rw [hm1]

/-- Witness for C10: a single `FORD` row; a primary is selected and the
alternatives list has `total_definitions - 1 = 0` entries. -/
theorem c10_get_smart_nonempty_witness :
    (get_smart [⟨"P0100", "FORD", "MAF circuit", false⟩] "P0100"
        none none).primary.isSome = true ∧
    (get_smart [⟨"P0100", "FORD", "MAF circuit", false⟩] "P0100"
        none none).alternatives.length =
      (get_smart [⟨"P0100", "FORD", "MAF circuit", false⟩] "P0100"
        none none).total_definitions - 1 :=
  ⟨((c10_get_smart_nonempty [⟨"P0100", "FORD", "MAF circuit", false⟩] "P0100"
      none none).1 (by decide)).1,
   ((c10_get_smart_nonempty [⟨"P0100", "FORD", "MAF circuit", false⟩] "P0100"
      none none).1 (by decide)).2 (by decide)⟩

/-- `ORDER BY manufacturer` as a relation, for `analyze_code`. -/
def mfrRel (a b : ManufacturerDTC) : Prop := strLE a.manufacturer b.manufacturer = true

instance : DecidableRel mfrRel := fun a b => by unfold mfrRel; infer_instance

instance : IsTrans ManufacturerDTC mfrRel :=
  ⟨fun a b c hab hbc => strLE_trans a.manufacturer b.manufacturer c.manufacturer hab hbc⟩

instance : IsTotal ManufacturerDTC mfrRel :=
  ⟨fun a b => by
    rcases Bool.or_eq_true_iff.mp (strLE_total a.manufacturer b.manufacturer) with h | h
    · exact Or.inl h
    · exact Or.inr h⟩

/-- One entry of `analyze_code`'s `variations` list. -/
structure Variation where
  description : String
  manufacturers : List String
  count : Nat
deriving DecidableEq, Repr

/-- The result dictionary of `PerfectDTCDatabase.analyze_code`. -/
structure CodeAnalysis where
  code : String
  total_manufacturers : Nat
  unique_descriptions : Nat
  variations : List Variation
deriving DecidableEq, Repr

/-- Python `variations.sort(key=lambda x: x['count'], reverse=True)` compares
entries by count, larger first; the sort is stable. -/
def countRel (v w : Variation) : Prop := w.count ≤ v.count

instance : DecidableRel countRel := fun v w => by unfold countRel; infer_instance

instance : IsTrans Variation countRel := ⟨fun _ _ _ hab hbc => le_trans hbc hab⟩

instance : IsTotal Variation countRel :=
  ⟨fun a b => (le_total b.count a.count).elim Or.inl Or.inr⟩

/-- `SELECT manufacturer, description FROM dtc_definitions WHERE code = ?
ORDER BY manufacturer` (dtc_perfect.py lines 406-411). -/
def analyzeRows (store : List ManufacturerDTC) (code : String) : List ManufacturerDTC :=
  (store.filter (fun r => r.code == upper code)).insertionSort mfrRel

/-- The `variations` dictionary of `analyze_code` turned into entries, in
first-seen (dict insertion) order: each description mapped to the
manufacturers sharing it, `count` being their number. -/
def variationsPre (store : List ManufacturerDTC) (code : String) : List Variation :=
  (firstSeenDescs ((analyzeRows store code).map (fun r => r.description))).map
    (fun s =>
      let ms := ((analyzeRows store code).filter
        (fun r => r.description == s)).map (fun r => r.manufacturer)
      { description := s, manufacturers := ms, count := ms.length })

/-- `PerfectDTCDatabase.analyze_code` (dtc_perfect.py lines 396-438). -/
def analyze_code (store : List ManufacturerDTC) (code : String) : CodeAnalysis :=
  { code := upper code
    total_manufacturers :=
      ((variationsPre store code).map (fun v => v.manufacturers.length)).sum
    unique_descriptions := (variationsPre store code).length
    variations := (variationsPre store code).insertionSort countRel }

theorem fsd_filter (a : String) : ∀ l : List String,
    (firstSeenDescs l).filter (fun t => !(t == a)) =
      firstSeenDescs (l.filter (fun t => !(t == a)))
  | [] => rfl
  | t :: ts => by
    by_cases hta : t = a
    · subst hta
      simp only [firstSeenDescs, List.filter_cons, beq_self_eq_true, Bool.not_true]
      rw [List.filter_filter]
      have : (fun u : String => !(u == t) && !(u == t)) = (fun u : String => !(u == t)) := by
        funext u
        rw [Bool.and_self]
      rw [this, fsd_filter t ts]
      simp
    · have h1 : (t == a) = false := by simp [hta]
      simp only [firstSeenDescs, List.filter_cons, h1, Bool.not_false]
      rw [List.filter_comm, fsd_filter a ts]
      simp

theorem sumCounts_aux : ∀ (n : Nat) (l : List String), l.length ≤ n →
    ((firstSeenDescs l).map (fun s => (l.filter (fun t => t == s)).length)).sum = l.length := by
  intro n
  induction n with
  | zero =>
    intro l hl
    obtain rfl := List.length_eq_zero.mp (Nat.le_zero.mp hl)
    rfl
  | succ n ih =>
    intro l hl
    cases l with
    | nil => rfl
    | cons s rest =>
      simp only [firstSeenDescs, List.map_cons, List.sum_cons]
      have hhead : ((s :: rest).filter (fun t => t == s)).length =
          (rest.filter (fun t => t == s)).length + 1 := by
        simp [List.filter_cons]
      have htail : (((firstSeenDescs rest).filter (fun t => !(t == s))).map
            (fun u => ((s :: rest).filter (fun t => t == u)).length)).sum =
          (rest.filter (fun t => !(t == s))).length := by
        rw [fsd_filter]
        have hcong : ∀ u ∈ firstSeenDescs (rest.filter (fun t => !(t == s))),
            ((s :: rest).filter (fun t => t == u)).length =
              ((rest.filter (fun t => !(t == s))).filter (fun t => t == u)).length := by
          intro u hu
          have humem : u ∈ rest.filter (fun t => !(t == s)) := mem_firstSeenDescs.mp hu
          have hus : (u == s) = false := by
            have h2 := (List.mem_filter.mp humem).2
            simpa using h2
          have hsu : (s == u) = false := by
            simp only [beq_eq_false_iff_ne] at hus ⊢
            exact fun h => hus h.symm
          rw [List.filter_cons]
          simp only [hsu, Bool.false_eq_true, if_false]
          rw [List.filter_comm]
          have hkeep : (rest.filter (fun t => t == u)).filter (fun t => !(t == s)) =
              rest.filter (fun t => t == u) := by
            apply List.filter_eq_self.mpr
            intro x hx
            have hxu : x = u := eq_of_beq (List.mem_filter.mp hx).2
            subst hxu
            simpa using hus
          rw [hkeep]
        rw [List.map_congr_left hcong]
        apply ih
        calc (rest.filter (fun t => !(t == s))).length ≤ rest.length :=
              List.length_filter_le _ _
          _ ≤ n := Nat.le_of_succ_le_succ hl
      rw [hhead, htail]
      have hpart : rest.length = (rest.filter (fun t => t == s)).length +
          (rest.filter (fun t => !(t == s))).length := by
        rw [List.length_eq_countP_add_countP (fun t => t == s) rest,
          List.countP_eq_length_filter, List.countP_eq_length_filter]
        congr 1
        apply congrArg List.length
        apply List.filter_congr
        intro x _
        by_cases hxs : x = s <;> simp [hxs]
      simp only [List.length_cons]
      omega

theorem sumCounts (l : List String) :
    ((firstSeenDescs l).map (fun s => (l.filter (fun t => t == s)).length)).sum = l.length :=
  sumCounts_aux l.length l (le_refl _)

theorem insertionSort_filter_stable {α : Type} (r : α → α → Prop) [DecidableRel r]
    [IsTotal α r] [IsTrans α r] (l : List α) (p : α → Bool)
    (hp : ∀ a b, p a = true → p b = true → r a b) :
    (l.insertionSort r).filter p = l.filter p := by
  have hpair : (l.filter p).Pairwise r := by
    apply List.pairwise_of_forall_mem_list
    intro a ha b hb
    exact hp a b (List.mem_filter.mp ha).2 (List.mem_filter.mp hb).2
  have h1 : (l.filter p).Sublist (l.insertionSort r) :=
    List.sublist_insertionSort hpair (List.filter_sublist l)
  have hidem : (l.filter p).filter p = l.filter p := by
    apply List.filter_eq_self.mpr
    intro a ha
    exact (List.mem_filter.mp ha).2
  have h3 : (l.filter p).Sublist ((l.insertionSort r).filter p) := by
    have := List.Sublist.filter p h1
    rwa [hidem] at this
  have h2 : ((l.insertionSort r).filter p).Perm (l.filter p) :=
    (List.perm_insertionSort r l).filter p
  exact (h3.eq_of_length h2.length_eq.symm).symm

/-- **C5.** `analyze_code` groups the code's rows by exact description text:
each entry's count is the number of manufacturers in its group;
`total_manufacturers` is the total row count for the code (equivalently the
sum of all entry counts); `unique_descriptions` is the number of groups; and
the variations are sorted by count descending with ties kept in first-seen
order. -/
theorem c5_analyze_code (store : List ManufacturerDTC) (code : String) :
    (∀ v ∈ (analyze_code store code).variations, v.count = v.manufacturers.length) ∧
    (analyze_code store code).total_manufacturers =
      (store.filter (fun r => r.code == upper code)).length ∧
    (analyze_code store code).total_manufacturers =
      ((analyze_code store code).variations.map (fun v => v.count)).sum ∧
    (analyze_code store code).unique_descriptions =
      (analyze_code store code).variations.length ∧
    List.Sorted countRel (analyze_code store code).variations ∧
    (∀ n : Nat, (analyze_code store code).variations.filter (fun v => v.count == n) =
      (variationsPre store code).filter (fun v => v.count == n)) := by
  have hpre : ∀ v ∈ variationsPre store code, v.count = v.manufacturers.length := by
    intro v hv
    obtain ⟨s, _, rfl⟩ := List.mem_map.mp hv
    rfl
  refine ⟨?_, ?_, ?_, ?_, ?_, ?_⟩
  · intro v hv
    exact hpre v (((List.perm_insertionSort countRel _).mem_iff).mp hv)
  · show ((variationsPre store code).map (fun v => v.manufacturers.length)).sum = _
    unfold variationsPre
    rw [List.map_map]
    have hfun : ∀ s ∈ firstSeenDescs ((analyzeRows store code).map
          (fun r => r.description)),
        (((analyzeRows store code).filter (fun r => r.description == s)).map
          (fun r => r.manufacturer)).length =
        (((analyzeRows store code).map (fun r => r.description)).filter
          (fun t => t == s)).length := by
      intro s _
      rw [List.length_map, ← List.countP_eq_length_filter,
        ← List.countP_eq_length_filter, List.countP_map]
      rfl
    simp only [Function.comp_def]
    rw [List.map_congr_left (fun s hs => hfun s hs)]
    rw [sumCounts ((analyzeRows store code).map (fun r => r.description))]
    rw [List.length_map]
    exact List.length_insertionSort _ _
  · show ((variationsPre store code).map (fun v => v.manufacturers.length)).sum = _
    rw [List.map_congr_left (fun v hv => (hpre v hv).symm)]
    exact (((List.perm_insertionSort countRel
      (variationsPre store code)).map (fun v => v.count)).sum_eq).symm
  · show (variationsPre store code).length = _
    exact (List.length_insertionSort _ _).symm
  · exact List.sorted_insertionSort countRel _
  · intro n
    apply insertionSort_filter_stable
    intro a b ha hb
    have ha2 : a.count = n := by simpa using ha
    have hb2 : b.count = n := by simpa using hb
    unfold countRel
    rw [ha2, hb2]

/-- Witness for C5: the single variation entry of a one-row store; its count
equals the number of manufacturers in its group. -/
theorem c5_analyze_code_witness :
    (⟨"Misfire", ["FORD"], 1⟩ : Variation).count =
      (⟨"Misfire", ["FORD"], 1⟩ : Variation).manufacturers.length :=
  (c5_analyze_code [⟨"P0300", "FORD", "Misfire", false⟩] "P0300").1
    ⟨"Misfire", ["FORD"], 1⟩ (by decide)

/-- Python `str.strip()`: whitespace removed from both ends. -/
def strip (s : String) : String :=
  ⟨((s.data.dropWhile Char.isWhitespace).reverse.dropWhile Char.isWhitespace).reverse⟩

/-- Row of the `dtc_definitions` table of `dtc_codes.db`
(schema in `DTCDatabase.create_database`). -/
structure DBRow where
  code : String
  manufacturer : String
  description : String
  type : String
  locale : String
  is_generic : Bool
deriving DecidableEq, Repr

/-- Dataclass `DTC` of dtc_database.py. -/
structure DTC where
  code : String
  description : String
  type : String
  manufacturer : Option String
  is_generic : Bool
  locale : String
deriving DecidableEq, Repr

/-- State of a `DTCDatabase` instance: the backing store (read-only during
resolution), the active locale, the cache capacity, and the `OrderedDict`
description cache as an ordered association list whose front entry is the
least recently used. -/
structure DTCDatabase where
  store : List DBRow
  locale : String
  cache_size : Nat
  cache : List (String × String)
deriving DecidableEq, Repr

/-- `DTCDatabase._normalize_code`: `code.upper().strip()`. -/
def _normalize_code (code : String) : String := strip (upper code)

/-- `DTCDatabase._normalize_manufacturer`: `manufacturer.strip().upper()`,
with `None` and the empty result collapsing to absent. -/
def _normalize_manufacturer (manufacturer : Option String) : Option String :=
  match manufacturer with
  | none => none
  | some m =>
    let cleaned := upper (strip m)
    if cleaned == "" then none else some cleaned

/-- `DTCDatabase._cache_get`: on a hit the entry is popped and re-appended
(recency refresh) and its value returned; on a miss the cache is unchanged. -/
def _cache_get (cache : List (String × String)) (key : String) :
    Option String × List (String × String) :=
  match cache.lookup key with
  | none => (none, cache)
  | some v => (some v, cache.filter (fun p => !(p.1 == key)) ++ [(key, v)])

/-- `DTCDatabase._cache_set`: pop an existing entry for the key, append the
new entry at the most-recent end, then drop the least-recently-used front
entry if the capacity is exceeded. -/
def _cache_set (cache_size : Nat) (cache : List (String × String))
    (key value : String) : List (String × String) :=
  let cache1 := if (cache.lookup key).isSome then
      cache.filter (fun p => !(p.1 == key)) else cache
  let cache2 := cache1 ++ [(key, value)]
  if cache_size < cache2.length then cache2.tail else cache2

/-- `SELECT ... WHERE code = ? AND locale = ?` row set, in table order. -/
def rowsFor (db : DTCDatabase) (c : String) : List DBRow :=
  db.store.filter (fun row => row.code == c && row.locale == db.locale)

/-- `DTCDatabase._row_to_dtc`. -/
def _row_to_dtc (row : DBRow) : DTC :=
  { code := row.code
    description := row.description
    type := row.type
    manufacturer := if row.manufacturer == "GENERIC" then none else some row.manufacturer
    is_generic := row.is_generic || row.manufacturer == "GENERIC"
    locale := row.locale }

/-- `DTCDatabase.get_dtc` (dtc_database.py lines 202-258).  With a
manufacturer: exact match first, then the `GENERIC` row.  Without: `ORDER BY
is_generic DESC LIMIT 1`, i.e. the first generic-flagged row in table order,
else the first row. -/
def get_dtc (db : DTCDatabase) (code : String) (manufacturer : Option String) :
    Option DTC :=
  let nc := _normalize_code code
  let nm := _normalize_manufacturer manufacturer
  match nm with
  | some m =>
    match (rowsFor db nc).find? (fun row => row.manufacturer == m) with
    | some row => some (_row_to_dtc row)
    | none =>
      ((rowsFor db nc).find? (fun row => row.manufacturer == "GENERIC")).map _row_to_dtc
  | none =>
    (((rowsFor db nc).filter (fun row => row.is_generic)).head? <|>
      (rowsFor db nc).head?).map _row_to_dtc

/-- The description-cache key:
`f"{normalized_code}:{normalized_manufacturer or 'GENERIC'}:{locale}"`. -/
def cacheKey (db : DTCDatabase) (code : String) (manufacturer : Option String) :
    String :=
  _normalize_code code ++ ":" ++
    ((_normalize_manufacturer manufacturer).getD "GENERIC") ++ ":" ++ db.locale

/-- `DTCDatabase.get_description` (dtc_database.py lines 176-200), returning
the updated database state together with the result.  A cache miss that also
misses the store caches nothing. -/
def get_description (db : DTCDatabase) (code : String)
    (manufacturer : Option String) : DTCDatabase × Option String :=
  let key := cacheKey db code manufacturer
  match _cache_get db.cache key with
  | (some v, cache2) => ({ db with cache := cache2 }, some v)
  | (none, cache2) =>
    match get_dtc db (_normalize_code code) (_normalize_manufacturer manufacturer) with
    | none => ({ db with cache := cache2 }, none)
    | some dtc =>
      ({ db with cache := _cache_set db.cache_size cache2 key dtc.description },
        some dtc.description)

/-- A sequence of `get_description` calls threaded through the state. -/
def runCalls (db : DTCDatabase) : List (String × Option String) → DTCDatabase
  | [] => db
  | (c, m) :: rest => runCalls (get_description db c m).1 rest

theorem lookup_append_absent {β : Type} :
    ∀ (l1 l2 : List (String × β)) (k : String), l1.lookup k = none →
      (l1 ++ l2).lookup k = l2.lookup k
  | [], _, _, _ => rfl
  | (a, b) :: t, l2, k, h => by
    simp only [List.lookup] at h ⊢
    cases hk : k == a with
    | true => rw [hk] at h; exact absurd h (by simp)
    | false =>
      rw [hk] at h
      exact lookup_append_absent t l2 k h

theorem lookup_none_tail {β : Type} (l : List (String × β)) (k : String)
    (h : l.lookup k = none) : l.tail.lookup k = none := by
  cases l with
  | nil => rfl
  | cons a t =>
    obtain ⟨a1, a2⟩ := a
    simp only [List.lookup] at h
    cases hk : k == a1 with
    | true => rw [hk] at h; exact absurd h (by simp)
    | false => rw [hk] at h; exact h

theorem lookup_some_mem {β : Type} :
    ∀ (l : List (String × β)) (k : String) (v : β), l.lookup k = some v →
      ∃ p ∈ l, p.1 = k
  | [], _, _, h => by simp [List.lookup] at h
  | (a, b) :: t, k, v, h => by
    simp only [List.lookup] at h
    cases hk : k == a with
    | true =>
      exact ⟨(a, b), List.mem_cons_self _ _, (eq_of_beq hk).symm⟩
    | false =>
      rw [hk] at h
      obtain ⟨p, hp, hpk⟩ := lookup_some_mem t k v h
      exact ⟨p, List.mem_cons_of_mem _ hp, hpk⟩

/-- **C7.** `get_description` is total over its declared input domain: every
call returns a description or absent, and with an absent manufacturer it
still falls through to the generic row's description when one exists. -/
theorem c7_get_description_total (db : DTCDatabase) (code : String)
    (manufacturer : Option String) :
    ((get_description db code manufacturer).2 = none ∨
      ∃ d, (get_description db code manufacturer).2 = some d) ∧
    (∀ (r : DBRow) (l : List DBRow),
      db.cache.lookup (cacheKey db code none) = none →
      (rowsFor db (_normalize_code (_normalize_code code))).filter
        (fun row => row.is_generic) = r :: l →
      (get_description db code none).2 = some r.description) := by
  constructor
  · cases h : (get_description db code manufacturer).2 with
    | none => exact Or.inl rfl
    | some d => exact Or.inr ⟨d, rfl⟩
  · intro r l hk hgen
    unfold get_description _cache_get
    dsimp only
    rw [hk]
    dsimp only
    unfold get_dtc
    dsimp only
    rw [hgen]
    rfl

/-- Witness for C7: one generic row, empty cache, absent manufacturer. -/
theorem c7_get_description_total_witness :
    (get_description ⟨[⟨"P0171", "GENERIC", "System too lean", "P", "en", true⟩],
        "en", 100, []⟩ "P0171" none).2 = some "System too lean" :=
  (c7_get_description_total
      ⟨[⟨"P0171", "GENERIC", "System too lean", "P", "en", true⟩], "en", 100, []⟩
      "P0171" none).2
    ⟨"P0171", "GENERIC", "System too lean", "P", "en", true⟩ [] (by decide) (by decide)

theorem lookup_cache_set (cs : Nat) (cache : List (String × String)) (k v : String)
    (h : cache.lookup k = none) :
    (_cache_set cs cache k v).lookup k = some v ∨ _cache_set cs cache k v = [] := by
  unfold _cache_set
  rw [h]
  simp only [Option.isSome_none, Bool.false_eq_true, if_false]
  by_cases he : cs < (cache ++ [(k, v)]).length
  · rw [if_pos he]
    cases cache with
    | nil => exact Or.inr rfl
    | cons a t =>
      left
      show (t ++ [(k, v)]).lookup k = some v
      rw [lookup_append_absent t [(k, v)] k (lookup_none_tail (a :: t) k h)]
      simp [List.lookup]
  · rw [if_neg he]
    left
    rw [lookup_append_absent cache [(k, v)] k h]
    simp [List.lookup]

/-- **C8.** With the key not yet cached, `get_description` derives its result
from the store; calling it again with identical arguments on the resulting
state yields the identical output, the second call being served from the
cache entry written by the first (whenever the capacity allows an entry at
all) — the cache never alters the result. -/
theorem c8_get_description_idempotent (db : DTCDatabase) (code : String)
    (manufacturer : Option String)
    (h : db.cache.lookup (cacheKey db code manufacturer) = none) :
    (get_description db code manufacturer).2 =
      (get_dtc db (_normalize_code code) (_normalize_manufacturer manufacturer)).map
        (fun dtc => dtc.description) ∧
    (get_description (get_description db code manufacturer).1 code manufacturer).2 =
      (get_description db code manufacturer).2 ∧
    (db.cache.length < db.cache_size →
      ∀ d, (get_description db code manufacturer).2 = some d →
        ((get_description db code manufacturer).1).cache.lookup
          (cacheKey db code manufacturer) = some d) := by
  have h1 : _cache_get db.cache (cacheKey db code manufacturer) = (none, db.cache) := by
    unfold _cache_get
    rw [h]
  cases hv : get_dtc db (_normalize_code code) (_normalize_manufacturer manufacturer) with
  | none =>
    have e1 : get_description db code manufacturer = (db, none) := by
      unfold get_description
      dsimp only
      rw [h1]
      dsimp only
      rw [hv]
    refine ⟨?_, ?_, ?_⟩
    · rw [e1]
      rfl
    · rw [e1]
      dsimp only
      rw [e1]
    · intro hlt d hd
      rw [e1] at hd
      exact Option.noConfusion hd
  | some dtc =>
    have e1 : get_description db code manufacturer =
        (⟨db.store, db.locale, db.cache_size,
          _cache_set db.cache_size db.cache (cacheKey db code manufacturer)
            dtc.description⟩, some dtc.description) := by
      unfold get_description
      dsimp only
      rw [h1]
      dsimp only
      rw [hv]
    refine ⟨?_, ?_, ?_⟩
    · rw [e1]
      rfl
    · rw [e1]
      dsimp only
      rcases lookup_cache_set db.cache_size db.cache (cacheKey db code manufacturer)
          dtc.description h with hlk | hnil
      · have h2 : _cache_get (⟨db.store, db.locale, db.cache_size,
              _cache_set db.cache_size db.cache (cacheKey db code manufacturer)
                dtc.description⟩ : DTCDatabase).cache
            (cacheKey (⟨db.store, db.locale, db.cache_size,
              _cache_set db.cache_size db.cache (cacheKey db code manufacturer)
                dtc.description⟩ : DTCDatabase) code manufacturer) =
            (some dtc.description,
              (_cache_set db.cache_size db.cache (cacheKey db code manufacturer)
                dtc.description).filter
                (fun p => !(p.1 == cacheKey db code manufacturer)) ++
              [(cacheKey db code manufacturer, dtc.description)]) := by
          show _cache_get (_cache_set db.cache_size db.cache
              (cacheKey db code manufacturer) dtc.description)
              (cacheKey db code manufacturer) = _
          unfold _cache_get
          rw [hlk]
        unfold get_description
        dsimp only
        rw [h2]
      · have h2 : _cache_get (⟨db.store, db.locale, db.cache_size,
              _cache_set db.cache_size db.cache (cacheKey db code manufacturer)
                dtc.description⟩ : DTCDatabase).cache
            (cacheKey (⟨db.store, db.locale, db.cache_size,
              _cache_set db.cache_size db.cache (cacheKey db code manufacturer)
                dtc.description⟩ : DTCDatabase) code manufacturer) =
            (none, _cache_set db.cache_size db.cache (cacheKey db code manufacturer)
              dtc.description) := by
          show _cache_get (_cache_set db.cache_size db.cache
              (cacheKey db code manufacturer) dtc.description)
              (cacheKey db code manufacturer) = _
          rw [hnil]
          rfl
        unfold get_description
        dsimp only
        rw [h2]
        dsimp only
        have hgd : get_dtc (⟨db.store, db.locale, db.cache_size,
              _cache_set db.cache_size db.cache (cacheKey db code manufacturer)
                dtc.description⟩ : DTCDatabase)
            (_normalize_code code) (_normalize_manufacturer manufacturer) =
            some dtc := hv
        rw [hgd]
    · intro hlt d hd
      rw [e1] at hd
      dsimp only at hd
      injection hd with hdd
      subst hdd
      rw [e1]
      dsimp only
      unfold _cache_set
      rw [h]
      simp only [Option.isSome_none, Bool.false_eq_true, if_false]
      have hlen : ¬ (db.cache_size <
          (db.cache ++ [(cacheKey db code manufacturer, dtc.description)]).length) := by
        rw [List.length_append]
        simp only [List.length_singleton]
        omega
      rw [if_neg hlen]
      rw [lookup_append_absent db.cache _ _ h]
      simp [List.lookup]

/-- Witness for C8: a repeated lookup on a one-row store returns the same
result as the first call. -/
theorem c8_get_description_idempotent_witness :
    (get_description ((get_description ⟨[⟨"P0171", "GENERIC", "System too lean",
        "P", "en", true⟩], "en", 100, []⟩ "P0171" none).1) "P0171" none).2 =
      (get_description ⟨[⟨"P0171", "GENERIC", "System too lean", "P", "en", true⟩],
        "en", 100, []⟩ "P0171" none).2 :=
  (c8_get_description_idempotent
      ⟨[⟨"P0171", "GENERIC", "System too lean", "P", "en", true⟩], "en", 100, []⟩
      "P0171" none (by decide)).2.1

theorem filter_lt_of_lookup_some (cache : List (String × String)) (k v : String)
    (h : cache.lookup k = some v) :
    (cache.filter (fun p => !(p.1 == k))).length < cache.length := by
  apply List.length_filter_lt_length_iff_exists.mpr
  obtain ⟨p, hp, hpk⟩ := lookup_some_mem cache k v h
  exact ⟨p, hp, by simp [hpk]⟩

theorem cache_set_length (cs : Nat) (cache : List (String × String)) (k v : String)
    (h : cache.length ≤ cs) : (_cache_set cs cache k v).length ≤ cs := by
  unfold _cache_set
  by_cases hk : (cache.lookup k).isSome = true
  · rw [if_pos hk]
    obtain ⟨v2, hv2⟩ := Option.isSome_iff_exists.mp hk
    have hf := filter_lt_of_lookup_some cache k v2 hv2
    by_cases he : cs < ((cache.filter (fun p => !(p.1 == k))) ++ [(k, v)]).length
    · rw [if_pos he]
      rw [List.length_tail, List.length_append]
      simp only [List.length_singleton]
      omega
    · rw [if_neg he]
      rw [List.length_append] at he ⊢
      simp only [List.length_singleton] at he ⊢
      omega
  · rw [if_neg hk]
    by_cases he : cs < (cache ++ [(k, v)]).length
    · rw [if_pos he]
      rw [List.length_tail, List.length_append]
      simp only [List.length_singleton]
      omega
    · rw [if_neg he]
      rw [List.length_append] at he ⊢
      simp only [List.length_singleton] at he ⊢
      omega

theorem mem_cache_set (cs : Nat) (cache : List (String × String)) (k v : String)
    (p : String × String) (hp : p ∈ _cache_set cs cache k v) :
    p ∈ cache ∨ p = (k, v) := by
  unfold _cache_set at hp
  have hbase : ∀ c1 : List (String × String), c1 = cache.filter (fun q => !(q.1 == k)) ∨
      c1 = cache → p ∈ (c1 ++ [(k, v)]) → p ∈ cache ∨ p = (k, v) := by
    intro c1 hc1 hmem
    rcases List.mem_append.mp hmem with hm | hm
    · rcases hc1 with rfl | rfl
      · exact Or.inl (List.mem_of_mem_filter hm)
      · exact Or.inl hm
    · exact Or.inr (List.mem_singleton.mp hm)
  by_cases hk : ((cache.lookup k).isSome) = true
  · rw [if_pos hk] at hp
    by_cases he : cs < ((cache.filter (fun q => !(q.1 == k))) ++ [(k, v)]).length
    · rw [if_pos he] at hp
      exact hbase _ (Or.inl rfl) (List.mem_of_mem_tail hp)
    · rw [if_neg he] at hp
      exact hbase _ (Or.inl rfl) hp
  · rw [if_neg hk] at hp
    by_cases he : cs < (cache ++ [(k, v)]).length
    · rw [if_pos he] at hp
      exact hbase _ (Or.inr rfl) (List.mem_of_mem_tail hp)
    · rw [if_neg he] at hp
      exact hbase _ (Or.inr rfl) hp

theorem get_description_cache_size (db : DTCDatabase) (code : String)
    (manufacturer : Option String) :
    (get_description db code manufacturer).1.cache_size = db.cache_size := by
  unfold get_description
  dsimp only
  cases hg : _cache_get db.cache (cacheKey db code manufacturer) with
  | mk o c2 =>
    cases o with
    | some v => rfl
    | none =>
      cases get_dtc db (_normalize_code code) (_normalize_manufacturer manufacturer) <;>
        rfl

theorem get_description_cache_length (db : DTCDatabase) (code : String)
    (manufacturer : Option String) (h : db.cache.length ≤ db.cache_size) :
    (get_description db code manufacturer).1.cache.length ≤ db.cache_size := by
  unfold get_description _cache_get
  dsimp only
  cases hlk : db.cache.lookup (cacheKey db code manufacturer) with
  | some v =>
    dsimp only
    rw [List.length_append]
    simp only [List.length_singleton]
    have := filter_lt_of_lookup_some db.cache (cacheKey db code manufacturer) v hlk
    omega
  | none =>
    dsimp only
    cases get_dtc db (_normalize_code code) (_normalize_manufacturer manufacturer) with
    | none => exact h
    | some dtc => exact cache_set_length db.cache_size db.cache _ _ h

theorem runCalls_cache_bound :
    ∀ (calls : List (String × Option String)) (db : DTCDatabase),
      db.cache.length ≤ db.cache_size →
      (runCalls db calls).cache.length ≤ db.cache_size ∧
        (runCalls db calls).cache_size = db.cache_size
  | [], db, h => ⟨h, rfl⟩
  | (c, m) :: rest, db, h => by
    have h1 := get_description_cache_length db c m h
    have h2 := get_description_cache_size db c m
    have ih := runCalls_cache_bound rest (get_description db c m).1
      (by rw [h2]; exact h1)
    exact ⟨by rw [← h2]; exact ih.1, by rw [← h2]; exact ih.2⟩

/-- **C9.** The description cache invariants: after every sequence of
`get_description` calls the cache holds at most `cache_size` entries; every
cache key is either pre-existing or the key of the call, which includes the
manufacturer context (`GENERIC` when absent) via `cacheKey`; when an
insertion pushes the cache past capacity the evicted entry is the front,
least-recently-used one; and both a cache hit and an overwrite move the
entry to the most-recent end. -/
theorem c9_cache_lru_invariants :
    (∀ (db : DTCDatabase) (calls : List (String × Option String)),
      db.cache.length ≤ db.cache_size →
      (runCalls db calls).cache.length ≤ db.cache_size) ∧
    (∀ (db : DTCDatabase) (code : String) (manufacturer : Option String),
      ∀ p ∈ (get_description db code manufacturer).1.cache,
        p.1 ∈ db.cache.map Prod.fst ∨ p.1 = cacheKey db code manufacturer) ∧
    (∀ (db : DTCDatabase) (code : String) (manufacturer : Option String) (dtc : DTC),
      db.cache.lookup (cacheKey db code manufacturer) = none →
      db.cache.length = db.cache_size → 0 < db.cache_size →
      get_dtc db (_normalize_code code) (_normalize_manufacturer manufacturer) =
        some dtc →
      (get_description db code manufacturer).1.cache =
        db.cache.tail ++ [(cacheKey db code manufacturer, dtc.description)]) ∧
    (∀ (cache : List (String × String)) (k v : String),
      cache.lookup k = some v →
      _cache_get cache k =
        (some v, cache.filter (fun p => !(p.1 == k)) ++ [(k, v)])) ∧
    (∀ (cs : Nat) (cache : List (String × String)) (k v : String),
      (cache.lookup k).isSome = true → cache.length ≤ cs →
      _cache_set cs cache k v =
        cache.filter (fun p => !(p.1 == k)) ++ [(k, v)]) := by
  refine ⟨?_, ?_, ?_, ?_, ?_⟩
  · intro db calls h
    exact (runCalls_cache_bound calls db h).1
  · intro db code manufacturer p
    unfold get_description _cache_get
    dsimp only
    cases hlk : db.cache.lookup (cacheKey db code manufacturer) with
    | some v =>
      dsimp only
      intro hp
      rcases List.mem_append.mp hp with hm | hm
      · exact Or.inl (List.mem_map_of_mem Prod.fst (List.mem_of_mem_filter hm))
      · exact Or.inr (by rw [List.mem_singleton.mp hm])
    | none =>
      dsimp only
      cases hv : get_dtc db (_normalize_code code)
          (_normalize_manufacturer manufacturer) with
      | none =>
        intro hp
        exact Or.inl (List.mem_map_of_mem Prod.fst hp)
      | some dtc =>
        intro hp
        dsimp only at hp
        rcases mem_cache_set db.cache_size db.cache _ _ p hp with hm | hm
        · exact Or.inl (List.mem_map_of_mem Prod.fst hm)
        · exact Or.inr (by rw [hm])
  · intro db code manufacturer dtc h0 hlen hpos hv
    have h1 : _cache_get db.cache (cacheKey db code manufacturer) = (none, db.cache) := by
      unfold _cache_get
      rw [h0]
    have e1 : (get_description db code manufacturer).1.cache =
        _cache_set db.cache_size db.cache (cacheKey db code manufacturer)
          dtc.description := by
      unfold get_description
      dsimp only
      rw [h1]
      dsimp only
      rw [hv]
    rw [e1]
    unfold _cache_set
    rw [h0]
    simp only [Option.isSome_none, Bool.false_eq_true, if_false]
    have he : db.cache_size <
        (db.cache ++ [(cacheKey db code manufacturer, dtc.description)]).length := by
      rw [List.length_append]
      simp only [List.length_singleton]
      omega
    rw [if_pos he]
    cases hc : db.cache with
    | nil =>
      rw [hc] at hlen
      simp only [List.length_nil] at hlen
      omega
    | cons a t => rfl
  · intro cache k v h
    unfold _cache_get
    rw [h]
  · intro cs cache k v hk hle
    unfold _cache_set
    rw [if_pos hk]
    obtain ⟨v2, hv2⟩ := Option.isSome_iff_exists.mp hk
    have hf := filter_lt_of_lookup_some cache k v2 hv2
    have he : ¬ (cs < ((cache.filter (fun p => !(p.1 == k))) ++ [(k, v)]).length) := by
      rw [List.length_append]
      simp only [List.length_singleton]
      omega
    rw [if_neg he]

/-- Witness for C9: two calls against a capacity-2 cache stay within the
capacity bound. -/
theorem c9_cache_lru_invariants_witness :
    (runCalls ⟨[⟨"P0171", "GENERIC", "System too lean", "P", "en", true⟩],
        "en", 2, []⟩ [("P0171", none), ("P0171", some "FORD")]).cache.length ≤ 2 :=
  c9_cache_lru_invariants.1
    ⟨[⟨"P0171", "GENERIC", "System too lean", "P", "en", true⟩], "en", 2, []⟩
    [("P0171", none), ("P0171", some "FORD")] (by decide)
